import Mathlib

/-!
Shallow embedding of the Typing Session Core of the `typing_game`
repository, translated from `src/src/app/services/game.ts` (session state
machine and timer pair) and `src/src/app/services/error-feedback.ts`
(keyboard geometry and error classifier), together with theorems settling
the specification claims about it.

Conventions of the embedding:
* JS numbers that only ever hold integers are `Int` (or `Nat` where the
  source can only produce non-negative values, e.g. counters that start at
  0 and are only incremented or reset to 0); the score multiplier, which
  takes values 1, 1.5, 2, ..., is `Rat`, as are elapsed-time quantities.
* `Math.round` is `jsRound` below: JS rounds half away from zero for
  positive arguments and half toward positive infinity in general, which
  is `Int.floor (q + 1/2)`.
* The reactive state container becomes explicit state passing: every
  mutating method takes the pre-state and returns the post-state.
* The word source (`WordService.getRandomWord` / custom-text iterator) is
  an external collaborator; operations that fetch the next word take it as
  an explicit argument `nextW`.
* An RxJS timer pipeline `interval(...).pipe(takeWhile(p), tap(f))` is
  embedded one fire at a time: a fire where `p` fails completes the stream
  and does NOT reach `tap`; a fire where `p` holds runs `f`.
-/

namespace TypingGame

/-- JS `Math.round`: round half toward positive infinity. -/
def jsRound (q : ℚ) : ℤ := ⌊q + 1/2⌋

/-- The `GameState` record of `game.ts` (interface `GameState`). -/
structure GameState where
  isPlaying : Bool
  isGameOver : Bool
  isPaused : Bool
  currentWord : String
  userInput : String
  score : ℤ
  correctWords : ℕ
  totalWords : ℕ
  accuracy : ℕ
  wpm : ℕ
  timeRemaining : ℤ
  streak : ℕ
  multiplier : ℚ
  gameTimeTotal : ℤ
  wordsTyped : List String
  mistakes : ℕ
deriving DecidableEq, Repr

/-- The `TypingResult` record returned by `processInput` / the commit
handlers. -/
structure TypingResult where
  isCorrect : Bool
  timeTaken : ℚ
  word : String
deriving DecidableEq, Repr

/-- Embedding of `getInitialState()` of `game.ts`. -/
def getInitialState : GameState :=
  { isPlaying := false
    isGameOver := false
    isPaused := false
    currentWord := ""
    userInput := ""
    score := 0
    correctWords := 0
    totalWords := 0
    accuracy := 100
    wpm := 0
    timeRemaining := 60
    streak := 0
    multiplier := 1
    gameTimeTotal := 60
    wordsTyped := []
    mistakes := 0 }

/-- The multiplier update formula of `handleCorrectWord`
(line 169 of `game.ts`): `Math.min(5, 1 + Math.floor(streak / 10) * 0.5)`
applied to a streak value `n`. -/
def multiplierOf (n : ℕ) : ℚ := min 5 (1 + ((n / 10 : ℕ) : ℚ) * (1/2))

/-- Embedding of `handleCorrectWord(timeTaken)` of `game.ts` (lines 161-187). `nextW` is
the word returned by `getNextWord()`. -/
def handleCorrectWord (s : GameState) (timeTaken : ℚ) (nextW : String) :
    GameState × TypingResult :=
  let baseScore : ℤ := (s.currentWord.length : ℤ) * 10
  let timeBonus : ℤ := max 0 (jsRound ((3 - timeTaken) * 5))
  let streakBonus : ℤ := ((s.streak / 5 : ℕ) : ℤ) * 50
  let totalScore : ℚ := ((baseScore + timeBonus + streakBonus : ℤ) : ℚ) * s.multiplier
  let newStreak : ℕ := s.streak + 1
  ({ s with
      score := s.score + jsRound totalScore
      correctWords := s.correctWords + 1
      totalWords := s.totalWords + 1
      streak := newStreak
      multiplier := multiplierOf newStreak
      userInput := ""
      wordsTyped := s.wordsTyped ++ [s.currentWord]
      currentWord := nextW },
   { isCorrect := true, timeTaken := timeTaken, word := s.currentWord })

/-- Embedding of `handleIncorrectWord(timeTaken)` of `game.ts` (lines 189-207). -/
def handleIncorrectWord (s : GameState) (timeTaken : ℚ) (nextW : String) :
    GameState × TypingResult :=
  ({ s with
      totalWords := s.totalWords + 1
      mistakes := s.mistakes + 1
      streak := 0
      multiplier := 1
      userInput := ""
      wordsTyped := s.wordsTyped ++ [s.currentWord]
      currentWord := nextW },
   { isCorrect := false, timeTaken := timeTaken, word := s.currentWord })

/-- Embedding of `processInput(input)` of `game.ts` (lines 142-155): stores the input,
then decides by exact equality first, then by length. `timeTaken` is the
elapsed time `(Date.now() - wordStartTime) / 1000` at the moment of the
call. -/
def processInput (s : GameState) (timeTaken : ℚ) (nextW : String)
    (input : String) : GameState × TypingResult :=
  let s1 := { s with userInput := input }
  if input = s.currentWord then
    handleCorrectWord s1 timeTaken nextW
  else if s.currentWord.length ≤ input.length then
    handleIncorrectWord s1 timeTaken nextW
  else
    (s1, { isCorrect := false, timeTaken := timeTaken, word := s.currentWord })

/-- Embedding of `skipWord()` of `game.ts` (lines 157-159): an unconditional
incorrect-word commit. -/
def skipWord (s : GameState) (timeTaken : ℚ) (nextW : String) :
    GameState × TypingResult :=
  handleIncorrectWord s timeTaken nextW

/-- Embedding of `endGame()` of `game.ts` (lines 127-135), state part (timer
cancellation is modelled on `Session` below). -/
def endGame (s : GameState) : GameState :=
  { s with isPlaying := false, isGameOver := true, isPaused := false }

/-- A concrete running session whose current word is `"the"`, as produced
by `startGame` with duration 60: `getInitialState()` overridden with
`isPlaying := true`, the first word and the configured duration
(lines 103-108 of `game.ts`). -/
def startGame (firstWord : String) (duration : ℤ) : GameState :=
  { getInitialState with
      isPlaying := true
      currentWord := firstWord
      timeRemaining := duration }

/-- One fire of the session timer pipeline `startGameTimer()` of `game.ts`
(lines 250-266): `interval(1000).pipe(takeWhile(timeRemaining > 0 ∧
isPlaying ∧ ¬isPaused), tap(decrement; if timeRemaining ≤ 0 then
endGame))`. A fire failing the `takeWhile` guard completes the stream and
never reaches the `tap`, leaving the state unchanged. -/
def gameTimerFire (s : GameState) : GameState :=
  if 0 < s.timeRemaining ∧ s.isPlaying = true ∧ s.isPaused = false then
    let s1 := { s with timeRemaining := max 0 (s.timeRemaining - 1) }
    if s1.timeRemaining ≤ 0 then endGame s1 else s1
  else s

/-- Result of one fire of the word timer pipeline: whether the stream
stays subscribed after this tick, and whether the tick invoked
`skipWord()`. -/
structure WordFire where
  continues : Bool
  skips : Bool
deriving DecidableEq, Repr

/-- One fire of the word timer pipeline `startWordTimer()` of `game.ts`
(lines 268-288): `interval(100).pipe(takeWhile(elapsed < timePerWord ∧
isPlaying ∧ ¬isPaused ∧ ¬isGameOver), tap(if elapsed ≥ timePerWord then
skipWord()))`. `elapsed1` is the value `(Date.now() - wordStartTime)/1000`
sampled inside the `takeWhile` predicate and `elapsed2` the value sampled
again inside the `tap` callback (the source calls `Date.now()` twice;
within one synchronous fire the two samples coincide). A fire failing the
`takeWhile` guard completes the stream without reaching the `tap`. -/
def wordTimerFire (s : GameState) (elapsed1 elapsed2 timePerWord : ℚ) :
    WordFire :=
  if elapsed1 < timePerWord ∧ s.isPlaying = true ∧ s.isPaused = false ∧
      s.isGameOver = false then
    { continues := true, skips := decide (timePerWord ≤ elapsed2) }
  else
    { continues := false, skips := false }

/-- The private timing fields and subscriptions of `GameService` that sit
next to the `GameState` signal: `wordStartTime` and whether the two timer
subscriptions are currently active (a `Subscription` is active until
`unsubscribe()`). -/
structure Session where
  state : GameState
  wordStartTime : ℚ
  gameTimerActive : Bool
  wordTimerActive : Bool
deriving DecidableEq, Repr

/-- Embedding of `pauseGame()` of `game.ts` (lines 116-125): toggles `isPaused`; when
the toggle lands on paused it runs `stopTimers()` (both subscriptions
cancelled), otherwise it starts both timers again. `wordStartTime` is not
touched in either direction. -/
def pauseGame (sess : Session) : Session :=
  let st := { sess.state with isPaused := !sess.state.isPaused }
  if st.isPaused then
    { sess with state := st, gameTimerActive := false, wordTimerActive := false }
  else
    { sess with state := st, gameTimerActive := true, wordTimerActive := true }

/-- Elapsed per-word time as computed inside `startWordTimer` and
`processInput`: `(Date.now() - wordStartTime) / 1000`, with `now` already
in seconds. -/
def elapsedSince (now : ℚ) (sess : Session) : ℚ := now - sess.wordStartTime

/-- The punctuation characters stripped by `initializeCustomText`
(`game.ts` line 225, regex class `[.,!?;:"'()\-]`). -/
def isCustomPunct (c : Char) : Bool :=
  c = '.' || c = ',' || c = '!' || c = '?' || c = ';' || c = ':' ||
  c = '"' || c = '\'' || c = '(' || c = ')' || c = '-'

/-- One token after `word.replace(/[.,!?;:"'()\-]/g, '')`. -/
def stripPunct (w : String) : String :=
  String.mk (w.data.filter (fun c => !isCustomPunct c))

/-- Embedding of `initializeCustomText(customText)` of `game.ts`
(lines 220-232), word list part: lower-case the content, split it at every
whitespace character (as `split(/\s+/)` does, runs of whitespace simply
contributing empty tokens that the final filter drops), strip punctuation
from each token, and drop empty tokens. Characterwise so that it reduces:
`content.toLowerCase()` is the character-wise `Char.toLower` map. -/
def initCustomText (content : String) : List String :=
  (((content.data.map Char.toLower).splitOnP (fun c => c.isWhitespace)).map
      (fun l => stripPunct (String.mk l))).filter
    (fun w => 0 < w.length)

/-- Embedding of `getNextCustomWord()` of `game.ts` (lines 234-248): serve
`words[idx]`, advance the index cyclically, and when the index wraps to 0
with at least one word already committed, schedule `endGame` via
`setTimeout(..., 100)` — the returned game state itself is not modified,
only the schedule flag is raised. -/
def getNextCustomWord (words : List String) (idx : ℕ) (g : GameState) :
    String × ℕ × GameState × Bool :=
  if words.length = 0 then
    ("end", idx, g, false)
  else
    let word := words.getD idx ""
    let newIdx := (idx + 1) % words.length
    (word, newIdx, g, decide (newIdx = 0 ∧ 0 < g.totalWords))

/-- The `type` field of the `ErrorPattern` records of
`error-feedback.ts`. -/
inductive ErrorType where
  | finger_slip
  | finger_confusion
  | timing
  | visual
  | muscle_memory
  | keyboard_layout
deriving DecidableEq, Repr

/-- One entry of the `keyboardLayout` table of `ErrorFeedbackService`:
row, column and assigned finger. -/
structure KeyInfo where
  row : ℤ
  col : ℤ
  finger : String
deriving DecidableEq, Repr

/-- The `keyboardLayout` table of `error-feedback.ts` (lines 42-57);
lookup of a key absent from the table is `none` (JS `undefined`). -/
def keyboardLayout (c : Char) : Option KeyInfo :=
  match c with
  | 'q' => some ⟨1, 0, "left-pinky"⟩
  | 'w' => some ⟨1, 1, "left-ring"⟩
  | 'e' => some ⟨1, 2, "left-middle"⟩
  | 'r' => some ⟨1, 3, "left-index"⟩
  | 't' => some ⟨1, 4, "left-index"⟩
  | 'y' => some ⟨1, 5, "right-index"⟩
  | 'u' => some ⟨1, 6, "right-index"⟩
  | 'i' => some ⟨1, 7, "right-middle"⟩
  | 'o' => some ⟨1, 8, "right-ring"⟩
  | 'p' => some ⟨1, 9, "right-pinky"⟩
  | 'a' => some ⟨2, 0, "left-pinky"⟩
  | 's' => some ⟨2, 1, "left-ring"⟩
  | 'd' => some ⟨2, 2, "left-middle"⟩
  | 'f' => some ⟨2, 3, "left-index"⟩
  | 'g' => some ⟨2, 4, "left-index"⟩
  | 'h' => some ⟨2, 5, "right-index"⟩
  | 'j' => some ⟨2, 6, "right-index"⟩
  | 'k' => some ⟨2, 7, "right-middle"⟩
  | 'l' => some ⟨2, 8, "right-ring"⟩
  | 'z' => some ⟨3, 0, "left-pinky"⟩
  | 'x' => some ⟨3, 1, "left-ring"⟩
  | 'c' => some ⟨3, 2, "left-middle"⟩
  | 'v' => some ⟨3, 3, "left-index"⟩
  | 'b' => some ⟨3, 4, "left-index"⟩
  | 'n' => some ⟨3, 5, "right-index"⟩
  | 'm' => some ⟨3, 6, "right-index"⟩
  | ' ' => some ⟨4, 4, "thumbs"⟩
  | _ => none

/-- Embedding of `classifyError(expected, actual, timeTaken)` of `error-feedback.ts`
(lines 153-182), returning the `type` of the `ErrorPattern` it selects
from `errorPatterns` (the `find` calls there always succeed, one pattern
record per type). Both lookups lower-case their key as in the source. -/
def classifyError (expected actual : Char) (timeTaken : ℚ) : ErrorType :=
  match keyboardLayout expected.toLower, keyboardLayout actual.toLower with
  | none, _ => .visual
  | _, none => .visual
  | some ek, some ak =>
    let distance : ℤ := |ek.row - ak.row| + |ek.col - ak.col|
    if distance = 1 then .finger_slip
    else if ek.finger ≠ ak.finger ∧ distance ≤ 2 then .finger_confusion
    else if timeTaken < 1/10 then .timing
    else if 3 < distance then .visual
    else .muscle_memory

/-- The classifier exactly as the specification words it (section 4.3):
ordered rules 1-6, first match wins, over the same geometry table. Stated
separately from `classifyError` so the two can be compared. -/
def classifySpecRules (expected actual : Char) (timeTaken : ℚ) : ErrorType :=
  match keyboardLayout expected.toLower, keyboardLayout actual.toLower with
  | none, _ => .visual
  | _, none => .visual
  | some ek, some ak =>
    let d : ℤ := |ek.row - ak.row| + |ek.col - ak.col|
    if d = 1 then .finger_slip
    else if ek.finger ≠ ak.finger ∧ d ≤ 2 then .finger_confusion
    else if timeTaken < 1/10 then .timing
    else if 3 < d then .visual
    else .muscle_memory

/-- C1: on a running session, an input exactly equal to the current word
commits a correct word: the score grows by
`round((len(word)*10 + max(0, round((3 - t)*5)) + floor(streak/5)*50) *
multiplier)`, the streak increments, the multiplier becomes
`min(5, 1 + floor(newStreak/10)*0.5)`, `correctWords` and `totalWords`
increment, the input resets and the next word is fetched; in particular
typing "the" for target "the" in 1.0 s with streak 0 and multiplier 1
adds exactly 40 points and sets the streak to 1. -/
theorem processInput_correct_commit (s : GameState) (t : ℚ) (w input : String)
    (hrun : s.isPlaying = true ∧ s.isPaused = false ∧ s.isGameOver = false)
    (heq : input = s.currentWord) :
    (processInput s t w input = handleCorrectWord { s with userInput := input } t w
      ∧ (processInput s t w input).1.score = s.score +
          jsRound ((((s.currentWord.length : ℤ) * 10 + max 0 (jsRound ((3 - t) * 5)) +
            ((s.streak / 5 : ℕ) : ℤ) * 50 : ℤ) : ℚ) * s.multiplier)
      ∧ (processInput s t w input).1.streak = s.streak + 1
      ∧ (processInput s t w input).1.multiplier = multiplierOf (s.streak + 1)
      ∧ (processInput s t w input).1.correctWords = s.correctWords + 1
      ∧ (processInput s t w input).1.totalWords = s.totalWords + 1
      ∧ (processInput s t w input).1.userInput = ""
      ∧ (processInput s t w input).1.currentWord = w
      ∧ (processInput s t w input).2 = ⟨true, t, s.currentWord⟩)
    ∧ (processInput (startGame "the" 60) 1 "cat" "the").1.score = 40
    ∧ (processInput (startGame "the" 60) 1 "cat" "the").1.streak = 1 := by
  subst heq
  refine ⟨?_, ?_, ?_⟩
  · simp only [processInput, if_pos rfl]
    exact ⟨rfl, rfl, rfl, rfl, rfl, rfl, rfl, rfl, rfl⟩
  · norm_num [processInput, handleCorrectWord, startGame, getInitialState,
      jsRound, multiplierOf, show ("the" : String).length = 3 from rfl]
  · norm_num [processInput, handleCorrectWord, startGame, getInitialState]

/-- Witness for C1 at the concrete Scenario A session. -/
theorem processInput_correct_commit_witness :
    (processInput (startGame "the" 60) 1 "cat" "the").1.score = 40 :=
  (processInput_correct_commit (startGame "the" 60) 1 "cat" "the"
    ⟨rfl, rfl, rfl⟩ rfl).2.1

/-- C2: every incorrect-word commit — `processInput` with a long-enough
non-matching input, an explicit `skipWord`, or the timeout path (which
also goes through `skipWord`) — unconditionally increments `totalWords`
and `mistakes`, zeroes the streak, resets the multiplier to 1, adds no
score, leaves `correctWords` unchanged, clears the input and fetches the
next word. -/
theorem incorrect_commit_resets (s : GameState) (t : ℚ) (w input : String)
    (hne : input ≠ s.currentWord) (hlen : s.currentWord.length ≤ input.length) :
    processInput s t w input = handleIncorrectWord { s with userInput := input } t w
    ∧ (∀ (s' : GameState) (t' : ℚ) (w' : String),
        skipWord s' t' w' = handleIncorrectWord s' t' w'
        ∧ (handleIncorrectWord s' t' w').1.totalWords = s'.totalWords + 1
        ∧ (handleIncorrectWord s' t' w').1.mistakes = s'.mistakes + 1
        ∧ (handleIncorrectWord s' t' w').1.streak = 0
        ∧ (handleIncorrectWord s' t' w').1.multiplier = 1
        ∧ (handleIncorrectWord s' t' w').1.score = s'.score
        ∧ (handleIncorrectWord s' t' w').1.correctWords = s'.correctWords
        ∧ (handleIncorrectWord s' t' w').1.userInput = ""
        ∧ (handleIncorrectWord s' t' w').1.currentWord = w'
        ∧ (handleIncorrectWord s' t' w').2 = ⟨false, t', s'.currentWord⟩) := by
  constructor
  · simp only [processInput]
    rw [if_neg hne, if_pos hlen]
  · exact fun s' t' w' => ⟨rfl, rfl, rfl, rfl, rfl, rfl, rfl, rfl, rfl, rfl⟩

/-- Witness for C2 at a concrete wrong input of equal length. -/
theorem incorrect_commit_resets_witness :
    processInput (startGame "the" 60) 1 "cat" "thx" =
      handleIncorrectWord { startGame "the" 60 with userInput := "thx" } 1 "cat" :=
  (incorrect_commit_resets (startGame "the" 60) 1 "cat" "thx"
    (by decide) (by decide)).1

/-- Branch analysis of `processInput`, shared by several claim theorems:
equality commits a correct word, otherwise sufficient length commits an
incorrect word, otherwise only the stored input changes. -/
theorem processInput_branches (s : GameState) (t : ℚ) (w input : String) :
    (input = s.currentWord →
      processInput s t w input = handleCorrectWord { s with userInput := input } t w)
    ∧ (input ≠ s.currentWord → s.currentWord.length ≤ input.length →
      processInput s t w input = handleIncorrectWord { s with userInput := input } t w)
    ∧ (input ≠ s.currentWord → input.length < s.currentWord.length →
      processInput s t w input =
        ({ s with userInput := input },
          { isCorrect := false, timeTaken := t, word := s.currentWord })) := by
  refine ⟨fun heq => ?_, fun hne hlen => ?_, fun hne hlt => ?_⟩
  · simp only [processInput]
    rw [if_pos heq]
  · simp only [processInput]
    rw [if_neg hne, if_pos hlen]
  · simp only [processInput]
    rw [if_neg hne, if_neg (not_le.mpr hlt)]

/-- C3: `processInput` decides by exact equality first, then by length:
an equal input is a correct commit, a non-equal input at least as long as
the current word is an explicit incorrect commit, and a shorter non-equal
input produces no word-level transition — only the stored input changes
and the result is `{isCorrect := false, timeTaken, word := currentWord}`. -/
theorem processInput_check_ordering (s : GameState) (t : ℚ) (w input : String) :
    (input = s.currentWord →
      processInput s t w input = handleCorrectWord { s with userInput := input } t w)
    ∧ (input ≠ s.currentWord → s.currentWord.length ≤ input.length →
      processInput s t w input = handleIncorrectWord { s with userInput := input } t w)
    ∧ (input ≠ s.currentWord → input.length < s.currentWord.length →
      processInput s t w input =
        ({ s with userInput := input },
          { isCorrect := false, timeTaken := t, word := s.currentWord })) :=
  processInput_branches s t w input

/-- Witness for C3 at a concrete mid-word input. -/
theorem processInput_check_ordering_witness :
    processInput (startGame "the" 60) 1 "cat" "th" =
      ({ startGame "the" 60 with userInput := "th" },
        { isCorrect := false, timeTaken := 1, word := "the" }) :=
  (processInput_check_ordering (startGame "the" 60) 1 "cat" "th").2.2
    (by decide) (by decide)

/-- C4 (code bug): the word timer can never invoke `skipWord`. The
`takeWhile` stage of `startWordTimer` admits a tick only while
`elapsed < timePerWord`, completing the stream on the first tick where
the limit is reached without passing it to the `tap` stage, so the
`tap`'s `if (elapsed >= timePerWord) skipWord()` branch is unreachable
whenever both stages observe the same elapsed value. At the concrete
failing input — a running session whose elapsed time equals the 5-second
limit — the fire completes the stream and performs no skip. -/
theorem wordTimer_skip_unreachable :
    (∀ (s : GameState) (e l : ℚ), (wordTimerFire s e e l).skips = false)
    ∧ wordTimerFire (startGame "the" 60) 5 5 5 =
        { continues := false, skips := false } := by
  constructor
  · intro s e l
    unfold wordTimerFire
    split
    · next h => exact decide_eq_false (not_le.mpr h.1)
    · rfl
  · norm_num [wordTimerFire, startGame, getInitialState]

/-- C5: the error classifier agrees with the ordered first-match-wins
rule list of the specification on every input, determinism being
inherent in the embedding as a pure function of
`(expectedChar, actualChar, timeTakenSeconds)`; and expected `'f'` versus
actual `'g'` — adjacent keys, Manhattan distance 1 — classifies as
`finger_slip` for every elapsed time. -/
theorem classifyError_matches_rules :
    (∀ (e a : Char) (t : ℚ), classifyError e a t = classifySpecRules e a t)
    ∧ (∀ t : ℚ, classifyError 'f' 'g' t = ErrorType.finger_slip) := by
  constructor
  · intro e a t
    rfl
  · intro t
    rfl

/-- C6: the multiplier derived from a streak value always lies between 1
and 5, is non-decreasing in the streak, equals 1.5 at streak 10, and is
exactly the value `handleCorrectWord` installs after a correct word. -/
theorem multiplier_bounded_monotone (n m : ℕ) (hnm : n ≤ m) :
    1 ≤ multiplierOf n ∧ multiplierOf n ≤ 5
    ∧ multiplierOf n ≤ multiplierOf m
    ∧ multiplierOf 10 = 3/2
    ∧ (∀ (s : GameState) (t : ℚ) (w : String),
        (handleCorrectWord s t w).1.multiplier = multiplierOf (s.streak + 1)) := by
  refine ⟨?_, ?_, ?_, ?_, fun s t w => rfl⟩
  · refine le_min (by norm_num) ?_
    have h0 : (0:ℚ) ≤ ((n / 10 : ℕ) : ℚ) * (1/2) := by positivity
    linarith
  · exact min_le_left _ _
  · have hdiv : ((n / 10 : ℕ) : ℚ) ≤ ((m / 10 : ℕ) : ℚ) := by
      exact_mod_cast Nat.div_le_div_right hnm
    unfold multiplierOf
    refine min_le_min le_rfl ?_
    nlinarith
  · norm_num [multiplierOf]

/-- Witness for C6 at streak values 0 and 10. -/
theorem multiplier_bounded_monotone_witness :
    multiplierOf 0 ≤ multiplierOf 10 ∧ multiplierOf 10 = 3/2 :=
  ⟨(multiplier_bounded_monotone 0 10 (by norm_num)).2.2.1,
   (multiplier_bounded_monotone 0 10 (by norm_num)).2.2.2.1⟩

set_option maxRecDepth 8000 in
/-- C7: a session-timer fire on a running, unpaused session with positive
time decrements `timeRemaining` by exactly 1; the fire that lands on 0 is
the one that calls `endGame`, a fire on positive time only decrements;
`timeRemaining` never goes negative; once the session stopped playing,
fires are no-ops (so 0 is reached exactly once); and starting from
duration 60, after 60 one-second fires the phase is over with
`timeRemaining = 0`. -/
theorem sessionTimer_countdown (s : GameState) (hp : s.isPlaying = true)
    (hq : s.isPaused = false) (ht : 0 < s.timeRemaining) :
    ((gameTimerFire s).timeRemaining = s.timeRemaining - 1
      ∧ (s.timeRemaining = 1 →
          gameTimerFire s = endGame { s with timeRemaining := 0 })
      ∧ (1 < s.timeRemaining →
          gameTimerFire s = { s with timeRemaining := s.timeRemaining - 1 }))
    ∧ (∀ s' : GameState, 0 ≤ s'.timeRemaining → 0 ≤ (gameTimerFire s').timeRemaining)
    ∧ (∀ s' : GameState, s'.isPlaying = false → gameTimerFire s' = s')
    ∧ (gameTimerFire^[60] (startGame "the" 60)).isGameOver = true
    ∧ (gameTimerFire^[60] (startGame "the" 60)).isPlaying = false
    ∧ (gameTimerFire^[60] (startGame "the" 60)).timeRemaining = 0 := by
  refine ⟨⟨?_, ?_, ?_⟩, ?_, ?_, by decide, by decide, by decide⟩
  · unfold gameTimerFire
    rw [if_pos ⟨ht, hp, hq⟩]
    dsimp only
    split
    · exact max_eq_right (by omega)
    · exact max_eq_right (by omega)
  · intro h1
    unfold gameTimerFire
    rw [if_pos ⟨ht, hp, hq⟩]
    norm_num [h1, endGame]
  · intro h2
    unfold gameTimerFire
    rw [if_pos ⟨ht, hp, hq⟩, max_eq_right (by omega : (0:ℤ) ≤ s.timeRemaining - 1)]
    rw [if_neg (show ¬(s.timeRemaining - 1 ≤ 0) by omega)]
  · intro s' h
    unfold gameTimerFire
    split
    · dsimp only
      split
      · exact le_max_left 0 _
      · exact le_max_left 0 _
    · exact h
  · intro s' h
    unfold gameTimerFire
    rw [if_neg (by simp [h])]

/-- Witness for C7 at the fresh 60-second session. -/
theorem sessionTimer_countdown_witness :
    (gameTimerFire (startGame "the" 60)).timeRemaining =
      (startGame "the" 60).timeRemaining - 1 :=
  (sessionTimer_countdown (startGame "the" 60) rfl rfl (by decide)).1.1

/-- C8: pausing a running session stops both timer subscriptions; any
number of session-timer fires against the paused state changes nothing
and a word-timer fire against it neither continues nor skips; and a
second `pauseGame` resumes with `wordStartTime` untouched by the whole
pause/resume round trip, so the per-word elapsed time continues from its
accumulated value rather than restarting from zero. -/
theorem pause_blocks_timers (sess : Session) (hp : sess.state.isPaused = false) :
    ((pauseGame sess).state.isPaused = true
      ∧ (pauseGame sess).gameTimerActive = false
      ∧ (pauseGame sess).wordTimerActive = false)
    ∧ (∀ n : ℕ, gameTimerFire^[n] (pauseGame sess).state = (pauseGame sess).state)
    ∧ (∀ e1 e2 l : ℚ, wordTimerFire (pauseGame sess).state e1 e2 l =
        { continues := false, skips := false })
    ∧ (pauseGame sess).wordStartTime = sess.wordStartTime
    ∧ (pauseGame (pauseGame sess)).state.isPaused = false
    ∧ (pauseGame (pauseGame sess)).gameTimerActive = true
    ∧ (pauseGame (pauseGame sess)).wordTimerActive = true
    ∧ (pauseGame (pauseGame sess)).wordStartTime = sess.wordStartTime
    ∧ (∀ now : ℚ, elapsedSince now (pauseGame (pauseGame sess)) = elapsedSince now sess)
    ∧ (pauseGame (pauseGame sess)).state.timeRemaining = sess.state.timeRemaining := by
  have h1 : (pauseGame sess).state.isPaused = true := by simp [pauseGame, hp]
  have hfixP : gameTimerFire (pauseGame sess).state = (pauseGame sess).state := by
    unfold gameTimerFire
    rw [if_neg]
    rintro ⟨-, -, hC⟩
    rw [h1] at hC
    cases hC
  refine ⟨⟨h1, ?_, ?_⟩, fun n => Function.iterate_fixed hfixP n,
    fun e1 e2 l => ?_, ?_, ?_, ?_, ?_, ?_, fun now => ?_, ?_⟩
  · simp [pauseGame, hp]
  · simp [pauseGame, hp]
  · unfold wordTimerFire
    rw [if_neg]
    rintro ⟨-, -, hC, -⟩
    rw [h1] at hC
    cases hC
  · simp [pauseGame, hp]
  · simp [pauseGame, hp]
  · simp [pauseGame, hp]
  · simp [pauseGame, hp]
  · simp [pauseGame, hp]
  · simp [pauseGame, hp, elapsedSince]
  · simp [pauseGame, hp]

/-- Witness for C8 at a concrete running session paused mid-word. -/
theorem pause_blocks_timers_witness :
    (pauseGame ⟨startGame "the" 60, 2, true, true⟩).gameTimerActive = false
    ∧ (pauseGame (pauseGame ⟨startGame "the" 60, 2, true, true⟩)).wordStartTime = 2 :=
  ⟨(pause_blocks_timers ⟨startGame "the" 60, 2, true, true⟩ rfl).1.2.1,
   (pause_blocks_timers ⟨startGame "the" 60, 2, true, true⟩ rfl).2.2.2.2.2.2.2.1⟩

/-- C9: the custom-text word list is the content lower-cased, split on
whitespace, punctuation-stripped and with empty tokens removed (every
served token is non-empty and punctuation-free, and a concrete text
tokenizes as expected); words are served by a cyclic index; and when the
index wraps to 0 with at least one word completed, the end of the session
is only scheduled — the game state returned alongside is untouched, the
`Over` transition is not taken immediately. -/
theorem customText_cyclic (words : List String) (idx : ℕ) (g : GameState)
    (hw : words ≠ []) (hi : idx < words.length) :
    (getNextCustomWord words idx g =
        (words.get ⟨idx, hi⟩, (idx + 1) % words.length, g,
          decide ((idx + 1) % words.length = 0 ∧ 0 < g.totalWords))
      ∧ (getNextCustomWord words idx g).2.2.1 = g
      ∧ ((getNextCustomWord words idx g).2.2.2 = true ↔
          ((idx + 1) % words.length = 0 ∧ 0 < g.totalWords)))
    ∧ (∀ content : String, ∀ w ∈ initCustomText content,
        0 < w.length ∧ ∀ c ∈ w.data, isCustomPunct c = false)
    ∧ initCustomText "Hello, world!  Bye-bye." = ["hello", "world", "byebye"] := by
  have hlen : ¬words.length = 0 := by simpa using hw
  have hgetd : words.getD idx "" = words.get ⟨idx, hi⟩ := by
    rw [List.getD_eq_getElem?_getD, List.getElem?_eq_getElem hi]
    rfl
  have h1 : getNextCustomWord words idx g =
      (words.get ⟨idx, hi⟩, (idx + 1) % words.length, g,
        decide ((idx + 1) % words.length = 0 ∧ 0 < g.totalWords)) := by
    unfold getNextCustomWord
    rw [if_neg hlen, hgetd]
  refine ⟨⟨h1, by rw [h1], by rw [h1]; simp⟩, ?_, by decide⟩
  intro content w hwmem
  simp only [initCustomText, List.mem_filter, List.mem_map] at hwmem
  obtain ⟨⟨l, -, rfl⟩, hwlen⟩ := hwmem
  refine ⟨by simpa using hwlen, ?_⟩
  intro c hc
  simp only [stripPunct, List.mem_filter] at hc
  simpa using hc.2

/-- Witness for C9 at a two-word list wrapping with one word committed. -/
theorem customText_cyclic_witness :
    getNextCustomWord ["a", "b"] 1 { getInitialState with totalWords := 1 } =
      ("b", 0, { getInitialState with totalWords := 1 }, true) :=
  (customText_cyclic ["a", "b"] 1 { getInitialState with totalWords := 1 }
    (by decide) (by decide)).1.1

/-- C10: `processInput` checks no phase at all — with the empty current
word of the `Idle` and `Over` phases, every call still stores the input
and commits: the empty input equals the current word and commits a
correct word (streak up, counters up, next word fetched), any other
input has length at least that of the empty word and commits an
incorrect word (mistake up, streak zeroed, next word fetched). -/
theorem processInput_no_phase_guard (s : GameState) (t : ℚ) (w input : String)
    (hph : s.isPlaying = false ∨ s.isPaused = true ∨ s.isGameOver = true)
    (hcw : s.currentWord = "") :
    (input = "" →
      processInput s t w input = handleCorrectWord { s with userInput := input } t w
      ∧ (processInput s t w input).1.totalWords = s.totalWords + 1
      ∧ (processInput s t w input).1.correctWords = s.correctWords + 1
      ∧ (processInput s t w input).1.streak = s.streak + 1
      ∧ (processInput s t w input).1.currentWord = w)
    ∧ (input ≠ "" →
      processInput s t w input = handleIncorrectWord { s with userInput := input } t w
      ∧ (processInput s t w input).1.totalWords = s.totalWords + 1
      ∧ (processInput s t w input).1.mistakes = s.mistakes + 1
      ∧ (processInput s t w input).1.streak = 0
      ∧ (processInput s t w input).1.currentWord = w) := by
  constructor
  · intro he
    have heq : input = s.currentWord := by rw [he, hcw]
    have h := (processInput_branches s t w input).1 heq
    rw [h]
    exact ⟨rfl, rfl, rfl, rfl, rfl⟩
  · intro hne
    have hne2 : input ≠ s.currentWord := by rw [hcw]; exact hne
    have hlen : s.currentWord.length ≤ input.length := by
      rw [hcw]
      exact Nat.zero_le _
    have h := (processInput_branches s t w input).2.1 hne2 hlen
    rw [h]
    exact ⟨rfl, rfl, rfl, rfl, rfl⟩

/-- Witness for C10 at the Idle initial state, exercising both branches. -/
theorem processInput_no_phase_guard_witness :
    (processInput getInitialState 1 "next" "x").1.mistakes = 1
    ∧ (processInput getInitialState 1 "next" "").1.streak = 1 :=
  ⟨((processInput_no_phase_guard getInitialState 1 "next" "x"
      (Or.inl rfl) rfl).2 (by decide)).2.2.1,
   ((processInput_no_phase_guard getInitialState 1 "next" ""
      (Or.inl rfl) rfl).1 rfl).2.2.2.1⟩

end TypingGame
